import Mathlib

/-!
Verification of the `fragrant` HTTP pass-through cache engine
(`src/fragrant/contrib/httpcache.py`), shallowly embedded in Lean 4.

Strings from the Python side are modelled as `List Char`; byte strings as
`List Nat`; the filesystem as an association list from path to entry; the
lazy generator bodies (`FileContent.__iter__`, `FileCacheContent.__iter__`)
as functions additionally parameterised by the number of `next()` calls the
consumer performs before abandoning the iterator (`takes`), so that early
consumer termination (`GeneratorExit`) is expressible.  Python exceptions
are modelled with `Except PyErr`.
-/

set_option maxRecDepth 4000

deriving instance DecidableEq for Except

inductive PyErr where
  | typeError
  | attributeError
  | keyError
  | ioError
  | valueError
deriving DecidableEq, Repr

/-- `FileContent.readsize = FileCacheContent.readsize = 4096`. -/
def readsize : Nat := 4096

/-! ## `Response` (httpcache.py lines 24-67) -/

/-- `Response.FULL_RANGE = (0, -1)`. -/
def FULL_RANGE : Int × Int := (0, -1)

structure Response where
  content_type : String
  size : Int
  rng : Int × Int
deriving DecidableEq, Repr

/-- `Response.__init__`: `self._range = range or self.FULL_RANGE`
(a tuple is always truthy, so only `None` falls back to the sentinel). -/
def mkResponse (content_type : String) (size : Int) (range : Option (Int × Int)) : Response :=
  ⟨content_type, size, range.getD FULL_RANGE⟩

/-- `Response.status`: 206 when `self._range != self.FULL_RANGE`, else 200. -/
def Response.status (r : Response) : Nat :=
  if r.rng ≠ FULL_RANGE then 206 else 200

/-- `Response.content_start`: `self._range[0]`. -/
def Response.content_start (r : Response) : Int := r.rng.1

/-- `Response.content_end`: `self.size - 1` when the end is the `-1` sentinel. -/
def Response.content_end (r : Response) : Int :=
  if r.rng.2 = -1 then r.size - 1 else r.rng.2

/-- `Response.content_length`: the source really computes
`(self.content_start - self.content_end) + 1`. -/
def Response.content_length (r : Response) : Int :=
  (r.content_start - r.content_end) + 1

/-- `Response.content_range`. -/
def Response.content_range (r : Response) : Int × Int :=
  (r.content_start, r.content_end)

/-- `Response.headers`: always `Content-Length`; `Content-Range` appended iff 206. -/
def Response.headers (r : Response) : List (String × String) :=
  [("Content-Length", toString r.content_length)] ++
    (if r.status = 206 then
      [("Content-Range",
        "bytes " ++ toString r.content_start ++ "-" ++ toString r.content_end
          ++ "/" ++ toString r.size)]
    else [])

/-! ## `HttpCache._get_range` (lines 180-190): regex `^bytes=(?P<start>\d+)-(?P<end>\d+)?$` -/

def digitsToNat (ds : List Char) : Nat :=
  ds.foldl (fun a c => a * 10 + (c.toNat - 48)) 0

/-- The anchored regex `^bytes=(?P<start>\d+)-(?P<end>\d+)?$`; on a match,
group `end` absent (empty) is mapped to the `-1` sentinel as in the source. -/
def parseRangeHeader (s : List Char) : Option (Int × Int) :=
  if s.take 6 = "bytes=".data then
    let r := s.drop 6
    let ds := r.takeWhile Char.isDigit
    if ds = [] then none
    else
      match r.dropWhile Char.isDigit with
      | '-' :: r2 =>
        let es := r2.takeWhile Char.isDigit
        if r2.dropWhile Char.isDigit ≠ [] then none
        else some ((digitsToNat ds : Int), if es = [] then (-1 : Int) else (digitsToNat es : Int))
      | _ => none
  else none

/-- `HttpCache._get_range`: absent or empty header is falsy and yields `None`;
a present header that fails the regex makes `m.group('end')` raise
`AttributeError` (`m` is `None`). -/
def get_range (httpRange : Option String) : Except PyErr (Option (Int × Int)) :=
  match httpRange with
  | none => .ok none
  | some s =>
    if s = "" then .ok none
    else
      match parseRangeHeader s.data with
      | some r => .ok (some r)
      | none => .error .attributeError

/-! ## Path helpers (`posixpath` / `urllib` as used by `translate_path`) -/

/-- `s.split(c, 1)[0]`: everything before the first occurrence of `c`. -/
def takeBeforeChar (c : Char) (s : List Char) : List Char :=
  s.takeWhile (fun x => x != c)

def hexVal (c : Char) : Option Nat :=
  if '0' ≤ c ∧ c ≤ '9' then some (c.toNat - 48)
  else if 'a' ≤ c ∧ c ≤ 'f' then some (c.toNat - 97 + 10)
  else if 'A' ≤ c ∧ c ≤ 'F' then some (c.toNat - 65 + 10)
  else none

/-- Python 2 `urllib.unquote`: each `%` followed by two hex digits decodes to
the corresponding byte; otherwise the `%` is kept literally. -/
def unquote : List Char → List Char
  | [] => []
  | '%' :: c1 :: c2 :: rest =>
    match hexVal c1, hexVal c2 with
    | some h, some l => Char.ofNat (16 * h + l) :: unquote rest
    | _, _ => '%' :: unquote (c1 :: c2 :: rest)
  | '%' :: rest => '%' :: unquote rest
  | c :: rest => c :: unquote rest

/-- `s.split(c)` (unlimited splits). -/
def splitOnChar (c : Char) : List Char → List (List Char)
  | [] => [[]]
  | x :: xs =>
    if x = c then [] :: splitOnChar c xs
    else (x :: (splitOnChar c xs).headD []) :: (splitOnChar c xs).tail

/-- `s.split(c, maxsplit)`: first component before `c`, if any. -/
def breakAtChar (c : Char) : List Char → Option (List Char × List Char)
  | [] => none
  | x :: xs =>
    if x = c then some ([], xs)
    else (breakAtChar c xs).map (fun p => (x :: p.1, p.2))

/-- `s.split(c, n)`. -/
def pySplitMax (c : Char) : Nat → List Char → List (List Char)
  | 0, s => [s]
  | n + 1, s =>
    match breakAtChar c s with
    | none => [s]
    | some (pre, post) => pre :: pySplitMax c n post

/-- Python 2 `posixpath.normpath`. -/
def normpath (path : List Char) : List Char :=
  if path = [] then ['.']
  else
    let initialSlashes : Nat :=
      if path.take 1 = ['/'] then
        if path.take 2 = ['/', '/'] ∧ ¬ path.take 3 = ['/', '/', '/'] then 2 else 1
      else 0
    let newComps := (splitOnChar '/' path).foldl (fun acc comp =>
      if comp = [] ∨ comp = ['.'] then acc
      else if comp ≠ ['.', '.'] ∨ (initialSlashes = 0 ∧ acc = [])
              ∨ acc.getLast? = some ['.', '.'] then acc ++ [comp]
      else acc.dropLast) []
    let p2 := List.replicate initialSlashes '/' ++ List.intercalate ['/'] newComps
    if p2 = [] then ['.'] else p2

/-- `posixpath.join` restricted to two arguments, as used by the source. -/
def os_path_join (a b : List Char) : List Char :=
  if b.take 1 = ['/'] then b
  else if a = [] ∨ a.getLast? = some '/' then a ++ b
  else a ++ '/' :: b

/-- `posixpath.splitdrive`: POSIX has no drives. -/
def os_path_splitdrive (p : List Char) : List Char × List Char := ([], p)

/-- `posixpath.split`: split at the last `/`; head keeps trailing slashes
stripped unless it is all slashes. -/
def os_path_split (p : List Char) : List Char × List Char :=
  let tail := (p.reverse.takeWhile (fun c => c != '/')).reverse
  let head := p.take (p.length - tail.length)
  (if head ≠ [] ∧ head.any (fun c => c != '/')
     then (head.reverse.dropWhile (fun c => c == '/')).reverse
     else head,
   tail)

/-- `str.rfind(c)` as an `Int` index (`-1` when absent). -/
def lastIndexOf (c : Char) (s : List Char) : Int :=
  match s.reverse.findIdx? (fun x => x == c) with
  | none => -1
  | some i => ((s.length - 1 - i : Nat) : Int)

/-- `posixpath.splitext`. -/
def os_path_splitext (p : List Char) : List Char × List Char :=
  let sepIndex := lastIndexOf '/' p
  let dotIndex := lastIndexOf '.' p
  if sepIndex < dotIndex then
    let between := (p.take dotIndex.toNat).drop (sepIndex + 1).toNat
    if between.any (fun c => c != '.') then (p.take dotIndex.toNat, p.drop dotIndex.toNat)
    else (p, [])
  else (p, [])

/-- One iteration of the `for word in words` loop body of `translate_path`. -/
def tpStep (current word : List Char) : List Char :=
  let w1 := (os_path_splitdrive word).2
  let w2 := (os_path_split w1).2
  if w2 = ['.'] ∨ w2 = ['.', '.'] then current
  else os_path_join current w2

/-- `HttpCache.translate_path` (lines 141-161). -/
def translate_path (cache_dir mirror_name path : List Char) : List Char :=
  let p1 := takeBeforeChar '?' path
  let p2 := takeBeforeChar '#' p1
  let p3 := normpath (unquote p2)
  let words := (splitOnChar '/' p3).filter (fun w => !w.isEmpty)
  words.foldl tpStep (os_path_join cache_dir mirror_name)

/-! ## Filesystem model and `HttpCache._find_file` (lines 173-178) -/

inductive FSEntry where
  | dir
  | file (contents : List Nat) (readable : Bool)
deriving DecidableEq, Repr

abbrev FS := List (List Char × FSEntry)

def fsLookup (fs : FS) (p : List Char) : Option FSEntry :=
  List.lookup p fs

/-- `os.path.isdir`. -/
def isdir (fs : FS) (p : List Char) : Bool :=
  match fsLookup fs p with
  | some .dir => true
  | _ => false

/-- `os.path.isfile`. -/
def isfile (fs : FS) (p : List Char) : Bool :=
  match fsLookup fs p with
  | some (.file _ _) => true
  | _ => false

/-- `os.path.exists`. -/
def fsExists (fs : FS) (p : List Char) : Bool :=
  (fsLookup fs p).isSome

/-- `HttpCache._find_file`: the first candidate in order that is a regular
file wins; `None` ⇒ miss. -/
def find_file (fs : FS) (paths : List (List Char × Bool)) : Option (List Char × Bool) :=
  paths.find? (fun pr => isfile fs pr.1)

/-- The in-flight download name `outfilename + '.tmp'`
(`FileCacheContent.__init__`, line 103). -/
def tmpName (p : List Char) : List Char := p ++ ".tmp".data

/-! ## `FileContent` (lines 69-93): the cache-hit byte stream

`fileContentIter contents range takes` runs the generator over a file with
the given `contents`, where `takes` is the number of `next()` calls the
consumer makes before closing the iterator.  The generator closes the file
only by falling out of the `while` loop (there is no `try/finally`), which
happens inside the `next()` call after the last yielded chunk. -/

structure PyFile where
  contents : List Nat
  pos : Nat
deriving DecidableEq, Repr

/-- `file.read(n)`: at most `n` bytes from the current position, the whole
rest of the file when `n` is negative. -/
def pyRead (f : PyFile) (n : Int) : List Nat × PyFile :=
  let avail := f.contents.drop f.pos
  let chunk := if n < 0 then avail else avail.take n.toNat
  (chunk, ⟨f.contents, f.pos + chunk.length⟩)

/-- The `while remaining:` loop of `FileContent.__iter__`; the returned `Bool`
records whether `self.f.close()` was executed. -/
def fcLoop : Nat → PyFile → Int → List (List Nat) × Bool
  | 0, _, _ => ([], false)
  | t + 1, f, remaining =>
    if remaining = 0 then ([], true)
    else
      let output := (pyRead f (min (readsize : Int) remaining)).1
      let f' := (pyRead f (min (readsize : Int) remaining)).2
      if output = [] then ([], true)
      else
        ((output :: (fcLoop t f' (remaining - (output.length : Int))).1),
         (fcLoop t f' (remaining - (output.length : Int))).2)

/-- `FileContent.__iter__`.  With `range=None` (as `do_GET` passes for a
range-file hit) the very first `next()` evaluates `self.range[0]` and raises
`TypeError`; a negative seek target raises `IOError`.  With `takes = 0` the
generator body never starts. -/
def fileContentIter (contents : List Nat) (range : Option (Int × Int)) (takes : Nat) :
    Except PyErr (List (List Nat) × Bool) :=
  if takes = 0 then .ok ([], false)
  else
    match range with
    | none => .error .typeError
    | some (s, e) =>
      if s < 0 then .error .ioError
      else .ok (fcLoop takes ⟨contents, s.toNat⟩ ((e - s) + 1))

def exceptIsOk : Except PyErr α → Bool
  | .ok _ => true
  | .error _ => false

def fcYielded : Except PyErr (List (List Nat) × Bool) → List (List Nat)
  | .ok (ys, _) => ys
  | .error _ => []

def fcClosed : Except PyErr (List (List Nat) × Bool) → Bool
  | .ok (_, c) => c
  | .error _ => false

/-! ## `FileCacheContent` (lines 96-121): the miss-path tee stream

`fileCacheIter body ok takes` runs `FileCacheContent.__iter__` against an
upstream whose successive reads deliver `body` in `readsize` pieces; `ok`
tells whether the upstream stream ends cleanly with an empty read (`true`)
or raises on the read past the end (`false`).  `takes` is as above.  The
result carries the yielded chunks, the bytes written to the `.tmp` file, and
whether the close-close-rename epilogue (lines 119-121) ran. -/

def fccLoop : Nat → List Nat → Bool → List Nat →
    Except PyErr (List (List Nat) × List Nat × Bool)
  | 0, _, _, written => .ok ([], written, false)
  | t + 1, body, ok, written =>
    let chunk := body.take readsize
    if chunk = [] then
      if ok then .ok ([], written, true) else .error .ioError
    else
      match fccLoop t (body.drop readsize) ok (written ++ chunk) with
      | .error e => .error e
      | .ok (ys, w, fin) => .ok (chunk :: ys, w, fin)

/-- `FileCacheContent.__iter__`. -/
def fileCacheIter (body : List Nat) (ok : Bool) (takes : Nat) :
    Except PyErr (List (List Nat) × List Nat × Bool) :=
  fccLoop takes body ok []

def fccYielded : Except PyErr (List (List Nat) × List Nat × Bool) → List (List Nat)
  | .ok (ys, _, _) => ys
  | .error _ => []

def fccTmp : Except PyErr (List (List Nat) × List Nat × Bool) → List Nat
  | .ok (_, w, _) => w
  | .error _ => []

/-- Whether `os.rename(self.outfilename + '.tmp', self.outfilename)` ran. -/
def fccRenamed : Except PyErr (List (List Nat) × List Nat × Bool) → Bool
  | .ok (_, _, fin) => fin
  | .error _ => false

/-! ## `HttpCache.do_GET` (lines 192-275)

The WSGI environ is reduced to the request url (as reconstructed by
`reconstruct_url`) and the optional `HTTP_RANGE` header.  The upstream
(`urllib2.urlopen`) is a parameter mapping fetch url and translated `Range`
header to either an `HTTPError` code or a response.  Externally visible
actions are recorded in order in a trace of events. -/

structure Upstream where
  contentRange : Option (List Char)
  contentLength : Nat
  body : List Nat
deriving DecidableEq, Repr

inductive Ev where
  | resolve (path : List Char)
  | fetch (url : List Char) (rangeHeader : Option (List Char))
  | mkdirs (dir : List Char)
  | openTmp (path : List Char)
  | respond (status : Nat) (headers : List (String × String))
deriving DecidableEq, Repr

inductive GetRet where
  | noneR
  | emptyStr
  | fileContent (contents : List Nat) (range : Option (Int × Int))
  | cacheStream (body : List Nat) (outfilename : List Char)
deriving DecidableEq, Repr

/-- `'%d' % i`. -/
def intStr (i : Int) : List Char := (toString i).data

/-- The range-suffixed candidate path `'%s(%d-%d)%s' % (name, start, end, ext)`
(lines 218-220); equal to `path` when no range was requested. -/
def rangePathOf (path : List Char) (range : Option (Int × Int)) : List Char :=
  match range with
  | some r =>
    ((os_path_splitext path).1 ++ ('(' :: intStr r.1) ++ ('-' :: intStr r.2))
      ++ (')' :: (os_path_splitext path).2)
  | none => path

/-- `HttpCache.extensions_map.get(ext, extensions_map[None])`. -/
def ctypeFor (ext : List Char) : String :=
  if ext = ".rpm".data then "application/x-redhat-package-manager"
  else "application/octet-stream"

/-- The upstream-confirmation regex `^bytes (?P<start>\d+)-(?P<end>\d+)/(?P<size>\d+)$`. -/
def parseContentRange (s : List Char) : Option (Nat × Nat × Nat) :=
  if s.take 6 = "bytes ".data then
    let r := s.drop 6
    let ds := r.takeWhile Char.isDigit
    if ds = [] then none
    else
      match r.dropWhile Char.isDigit with
      | '-' :: r2 =>
        let es := r2.takeWhile Char.isDigit
        if es = [] then none
        else
          match r2.dropWhile Char.isDigit with
          | '/' :: r3 =>
            let ss := r3.takeWhile Char.isDigit
            if ss = [] then none
            else if r3.dropWhile Char.isDigit ≠ [] then none
            else some (digitsToNat ds, digitsToNat es, digitsToNat ss)
          | _ => none
      | _ => none
  else none

/-- The cache-hit branch (lines 223-240): open the chosen file (500 when
unreadable), build the `Response` from its on-disk size, and hand back a
`FileContent` whose range argument is the resolved content range for a
full-file hit but `None` for a range-file hit. -/
def serve_local (ctype : String) (fs : FS) (range : Option (Int × Int))
    (local_path : List Char) (file_range : Bool) (evs : List Ev) :
    List Ev × Except PyErr GetRet :=
  match fsLookup fs local_path with
  | some (.file contents true) =>
    let response := mkResponse ctype (contents.length : Int) range
    (evs ++ [Ev.respond response.status response.headers],
     .ok (GetRet.fileContent contents
       (if file_range then some (response.content_start, response.content_end) else none)))
  | _ => (evs ++ [Ev.respond 500 []], .ok GetRet.emptyStr)

/-- The cache-miss branch (lines 241-275): `self.mirrors[mirror_name]` raises
`KeyError` for an unknown mirror; otherwise fetch upstream with a translated
`Range` header, make the cache directory, honour an upstream `Content-Range`
over the local assumption, and hand back a `FileCacheContent`. -/
def fetch_remote (mirrors : List (List Char × List Char)) (fs : FS)
    (remote : List Char → Option (List Char) → Except Nat Upstream)
    (ctype : String) (range : Option (Int × Int)) (mirror_name url range_path : List Char)
    (evs : List Ev) : List Ev × Except PyErr GetRet :=
  match List.lookup mirror_name mirrors with
  | none => (evs, .error .keyError)
  | some base =>
    let fetch_url := base ++ url
    let hdr := range.map (fun r =>
      "bytes=".data ++ intStr r.1 ++ ('-' :: (if r.2 = -1 then [] else intStr r.2)))
    let evs := evs ++ [Ev.fetch fetch_url hdr]
    match remote fetch_url hdr with
    | .error code => (evs ++ [Ev.respond code []], .ok GetRet.emptyStr)
    | .ok up =>
      let dir := (os_path_split range_path).1
      let evs := evs ++ (if fsExists fs dir then [] else [Ev.mkdirs dir])
      match up.contentRange with
      | some cr =>
        match parseContentRange cr with
        | none => (evs, .error .attributeError)
        | some (s, e, sz) =>
          let response := mkResponse ctype (sz : Int) (some ((s : Int), (e : Int)))
          (evs ++ [Ev.openTmp (tmpName range_path),
                   Ev.respond response.status response.headers],
           .ok (GetRet.cacheStream up.body range_path))
      | none =>
        let response := mkResponse ctype (up.contentLength : Int) range
        (evs ++ [Ev.openTmp (tmpName range_path),
                 Ev.respond response.status response.headers],
         .ok (GetRet.cacheStream up.body range_path))

/-- `do_GET` from the point where the local path has been resolved: directory
check, content type, range parsing, candidate lookup, then hit or miss. -/
def do_GET_path (mirrors : List (List Char × List Char)) (fs : FS)
    (remote : List Char → Option (List Char) → Except Nat Upstream)
    (httpRange : Option String) (mirror_name url path : List Char) :
    List Ev × Except PyErr GetRet :=
  let evs := [Ev.resolve path]
  if isdir fs path then (evs, .ok GetRet.noneR)
  else
    let ctype := ctypeFor (os_path_splitext path).2
    match get_range httpRange with
    | .error e => (evs, .error e)
    | .ok range =>
      let range_path := rangePathOf path range
      match find_file fs [(path, true), (range_path, false)] with
      | some (local_path, file_range) => serve_local ctype fs range local_path file_range evs
      | none => fetch_remote mirrors fs remote ctype range mirror_name url range_path evs

/-- `_, mirror_name, url = url.split('/', 2)`: any other shape raises
`ValueError` on unpacking. -/
def do_GET_split (mirrors : List (List Char × List Char)) (cache_dir : List Char) (fs : FS)
    (remote : List Char → Option (List Char) → Except Nat Upstream)
    (httpRange : Option String) : List (List Char) → List Ev × Except PyErr GetRet
  | [_, mirror_name, rest] =>
    do_GET_path mirrors fs remote httpRange mirror_name ('/' :: rest)
      (translate_path cache_dir mirror_name ('/' :: rest))
  | _ => ([], .error .valueError)

/-- `HttpCache.do_GET`. -/
def do_GET (mirrors : List (List Char × List Char)) (cache_dir : List Char) (fs : FS)
    (remote : List Char → Option (List Char) → Except Nat Upstream)
    (url : List Char) (httpRange : Option String) : List Ev × Except PyErr GetRet :=
  do_GET_split mirrors cache_dir fs remote httpRange (pySplitMax '/' 2 url)

/-- `HttpCache.__call__`: only `GET` is dispatched; any other method raises. -/
def httpCacheCall (mirrors : List (List Char × List Char)) (cache_dir : List Char) (fs : FS)
    (remote : List Char → Option (List Char) → Except Nat Upstream)
    (method : String) (url : List Char) (httpRange : Option String) :
    List Ev × Except PyErr GetRet :=
  if method = "GET" then do_GET mirrors cache_dir fs remote url httpRange
  else ([], .error .valueError)

/-! ## Derived notions used to state the claims -/

/-- A path segment that can never move the joined path out of its base
directory: nonempty, not `.` or `..`, and without a separator. -/
def safeSeg (w : List Char) : Prop :=
  w ≠ [] ∧ w ≠ ['.'] ∧ w ≠ ['.', '.'] ∧ '/' ∉ w

/-- `p` lies strictly below the directory `base`: it is `base` extended by at
least one safe segment. -/
def strictDescendant (base p : List Char) : Prop :=
  ∃ segs : List (List Char), segs ≠ [] ∧ (∀ w ∈ segs, safeSeg w) ∧
    p = segs.foldl os_path_join base

/-- `p` is `base` itself or lies below it. -/
def descendantOrSelf (base p : List Char) : Prop :=
  ∃ segs : List (List Char), (∀ w ∈ segs, safeSeg w) ∧
    p = segs.foldl os_path_join base

/-- The words that survive the `if word in (os.curdir, os.pardir): continue`
test of `translate_path`. -/
def notDot (w : List Char) : Bool :=
  decide (w ≠ ['.'] ∧ w ≠ ['.', '.'])

/-! ## Helper lemmas -/

theorem splitOnChar_ne_nil (c : Char) (s : List Char) : splitOnChar c s ≠ [] := by
  cases s with
  | nil => simp [splitOnChar]
  | cons x xs =>
    simp only [splitOnChar]
    split <;> simp

theorem not_mem_of_mem_splitOnChar (c : Char) (s : List Char) :
    ∀ w ∈ splitOnChar c s, c ∉ w := by
  induction s with
  | nil =>
    intro w hw
    simp [splitOnChar] at hw
    simp [hw]
  | cons x xs ih =>
    intro w hw
    simp only [splitOnChar] at hw
    by_cases hx : x = c
    · rw [if_pos hx] at hw
      rcases List.mem_cons.mp hw with h | h
      · subst h; simp
      · exact ih w h
    · rw [if_neg hx] at hw
      rcases List.mem_cons.mp hw with h | h
      · subst h
        intro hc
        rcases List.mem_cons.mp hc with h1 | h1
        · exact hx h1.symm
        · have hne := splitOnChar_ne_nil c xs
          have hmem : (splitOnChar c xs).headD [] ∈ splitOnChar c xs := by
            cases hsp : splitOnChar c xs with
            | nil => exact absurd hsp hne
            | cons a t => simp
          exact ih _ hmem h1
      · exact ih w (List.mem_of_mem_tail h)

theorem os_path_split_of_not_slash (w : List Char) (h : '/' ∉ w) :
    os_path_split w = ([], w) := by
  have hall : ∀ x ∈ w.reverse, (x != '/') = true := by
    intro x hx
    have hxw : x ∈ w := List.mem_reverse.mp hx
    have hxne : x ≠ '/' := fun he => h (he ▸ hxw)
    simpa using hxne
  have ht : w.reverse.takeWhile (fun c => c != '/') = w.reverse :=
    List.takeWhile_eq_self_iff.mpr hall
  simp [os_path_split, ht]

theorem tpStep_of_not_slash (current w : List Char) (h : '/' ∉ w) :
    tpStep current w =
      if w = ['.'] ∨ w = ['.', '.'] then current else os_path_join current w := by
  simp [tpStep, os_path_splitdrive, os_path_split_of_not_slash w h]

theorem foldl_tpStep : ∀ (ws : List (List Char)) (base : List Char),
    (∀ w ∈ ws, '/' ∉ w) →
    ws.foldl tpStep base = (ws.filter notDot).foldl os_path_join base := by
  intro ws
  induction ws with
  | nil => intro base _; rfl
  | cons w rest ih =>
    intro base h
    have hw : '/' ∉ w := h w (List.mem_cons_self w rest)
    have hrest : ∀ x ∈ rest, '/' ∉ x := fun x hx => h x (List.mem_cons_of_mem w hx)
    rw [List.foldl_cons, tpStep_of_not_slash base w hw, List.filter_cons]
    by_cases hd : w = ['.'] ∨ w = ['.', '.']
    · have hnd : notDot w = false := by
        rcases hd with h1 | h1 <;> simp [notDot, h1]
      rw [if_pos hd, hnd]
      simp only [Bool.false_eq_true, if_false]
      exact ih base hrest
    · have hnd : notDot w = true := by
        push_neg at hd
        simp [notDot, hd.1, hd.2]
      rw [if_neg hd, hnd]
      simp only [if_true]
      rw [List.foldl_cons]
      exact ih (os_path_join base w) hrest

theorem os_path_join_length (a w : List Char) (hw : w ≠ []) (hs : '/' ∉ w) :
    a.length < (os_path_join a w).length := by
  cases w with
  | nil => exact absurd rfl hw
  | cons x xs =>
    have hx : x ≠ '/' := fun he => hs (he ▸ List.mem_cons_self x xs)
    have h1 : (x :: xs).take 1 ≠ ['/'] := by
      simp [List.take_succ_cons, hx]
    rw [os_path_join, if_neg h1]
    by_cases h2 : a = [] ∨ a.getLast? = some '/'
    · rw [if_pos h2]; simp
    · rw [if_neg h2]; simp

theorem foldl_join_length : ∀ (segs : List (List Char)) (base : List Char),
    (∀ w ∈ segs, w ≠ [] ∧ '/' ∉ w) → segs ≠ [] →
    base.length < (segs.foldl os_path_join base).length := by
  intro segs
  induction segs with
  | nil => intro base _ hne; exact absurd rfl hne
  | cons w rest ih =>
    intro base h _
    have hw := h w (List.mem_cons_self w rest)
    rw [List.foldl_cons]
    cases rest with
    | nil => simpa using os_path_join_length base w hw.1 hw.2
    | cons a t =>
      have h2 := ih (os_path_join base w)
        (fun x hx => h x (List.mem_cons_of_mem w hx)) (by simp)
      exact lt_trans (os_path_join_length base w hw.1 hw.2) h2

theorem translate_path_descendantOrSelf (cache_dir mirror_name path : List Char) :
    descendantOrSelf (os_path_join cache_dir mirror_name)
      (translate_path cache_dir mirror_name path) := by
  unfold descendantOrSelf
  dsimp only [translate_path]
  set p3 := normpath (unquote (takeBeforeChar '#' (takeBeforeChar '?' path))) with hp3
  set words := (splitOnChar '/' p3).filter (fun w => !w.isEmpty) with hwords
  have hnos : ∀ w ∈ words, '/' ∉ w := by
    intro w hw
    have hmem := (List.mem_filter.mp hw).1
    exact not_mem_of_mem_splitOnChar '/' p3 w hmem
  refine ⟨words.filter notDot, ?_, ?_⟩
  · intro w hw
    have h1 := List.mem_filter.mp hw
    have h2 := List.mem_filter.mp h1.1
    have hne : w ≠ [] := by
      intro hw0
      rw [hw0] at h2
      simp at h2
    have hdots := of_decide_eq_true h1.2
    exact ⟨hne, hdots.1, hdots.2, hnos w h1.1⟩
  · exact foldl_tpStep words _ hnos

theorem tmpName_ne (p : List Char) : p ≠ tmpName p := by
  intro h
  have hlen := congrArg List.length h
  have h4 : ".tmp".data.length = 4 := by decide
  rw [tmpName, List.length_append, h4] at hlen
  omega

theorem find_file_tmp_invisible (p rp : List Char) (e : FSEntry) (h : p ≠ tmpName rp) :
    find_file [(tmpName rp, e)] [(p, true), (rp, false)] = none := by
  have h2 : rp ≠ tmpName rp := tmpName_ne rp
  have hb1 : (p == tmpName rp) = false := beq_eq_false_iff_ne.mpr h
  have hb2 : (rp == tmpName rp) = false := beq_eq_false_iff_ne.mpr h2
  simp [find_file, isfile, fsLookup, List.lookup, hb1, hb2]

theorem fcLoop_closed_iff : ∀ (t : Nat) (f : PyFile) (r : Int),
    (fcLoop t f r).2 = true ↔ (fcLoop t f r).1.length < t := by
  intro t
  induction t with
  | zero => intro f r; simp [fcLoop]
  | succ t ih =>
    intro f r
    simp only [fcLoop]
    by_cases h0 : r = 0
    · simp [h0]
    · rw [if_neg h0]
      by_cases ho : (pyRead f (min (readsize : Int) r)).1 = []
      · simp [ho]
      · rw [if_neg ho]
        simp only [List.length_cons]
        rw [ih]
        omega

theorem fccLoop_ok_no_error : ∀ (t : Nat) (body w : List Nat),
    exceptIsOk (fccLoop t body true w) = true := by
  intro t
  induction t with
  | zero => intro body w; simp [fccLoop, exceptIsOk]
  | succ t ih =>
    intro body w
    simp only [fccLoop]
    by_cases hb : body.take readsize = []
    · simp [hb, exceptIsOk]
    · rw [if_neg hb]
      have h := ih (body.drop readsize) (w ++ body.take readsize)
      cases hres : fccLoop t (body.drop readsize) true (w ++ body.take readsize) with
      | error e => rw [hres] at h; simp [exceptIsOk] at h
      | ok p => simp [exceptIsOk]

theorem fccLoop_renamed_iff : ∀ (t : Nat) (body : List Nat) (ok : Bool) (w : List Nat),
    fccRenamed (fccLoop t body ok w) = true ↔
      (ok = true ∧ (fccYielded (fccLoop t body ok w)).length < t) := by
  intro t
  induction t with
  | zero => intro body ok w; simp [fccLoop, fccRenamed, fccYielded]
  | succ t ih =>
    intro body ok w
    simp only [fccLoop]
    by_cases hb : body.take readsize = []
    · rw [if_pos hb]
      cases ok with
      | true => simp [fccRenamed, fccYielded]
      | false => simp [fccRenamed, fccYielded]
    · rw [if_neg hb]
      have h := ih (body.drop readsize) ok (w ++ body.take readsize)
      cases hres : fccLoop t (body.drop readsize) ok (w ++ body.take readsize) with
      | error e =>
        rw [hres] at h
        cases ok with
        | true =>
          have h2 := fccLoop_ok_no_error t (body.drop readsize) (w ++ body.take readsize)
          rw [hres] at h2
          simp [exceptIsOk] at h2
        | false => simp [fccRenamed, fccYielded]
      | ok p =>
        obtain ⟨ys, w1, fin⟩ := p
        rw [hres] at h
        simp only [fccRenamed, fccYielded] at h ⊢
        rw [List.length_cons, h]
        constructor
        · rintro ⟨h1, h2⟩
          exact ⟨h1, by omega⟩
        · rintro ⟨h1, h2⟩
          exact ⟨h1, by omega⟩

theorem fccLoop_publish : ∀ (t : Nat) (body : List Nat) (ok : Bool) (w w1 : List Nat)
    (ys : List (List Nat)),
    fccLoop t body ok w = .ok (ys, w1, true) →
      ok = true ∧ w1 = w ++ body ∧ w1 = w ++ ys.flatten := by
  intro t
  induction t with
  | zero =>
    intro body ok w w1 ys h
    simp [fccLoop] at h
  | succ t ih =>
    intro body ok w w1 ys h
    simp only [fccLoop] at h
    by_cases hb : body.take readsize = []
    · rw [if_pos hb] at h
      have hbody : body = [] := by
        cases body with
        | nil => rfl
        | cons a l => simp [readsize] at hb
      cases ok with
      | false => simp at h
      | true =>
        simp only [if_true] at h
        rw [Except.ok.injEq, Prod.mk.injEq, Prod.mk.injEq] at h
        obtain ⟨hys, hw, _⟩ := h
        subst hbody
        exact ⟨rfl, by simp [hw], by simp [hw, ← hys]⟩
    · rw [if_neg hb] at h
      cases hres : fccLoop t (body.drop readsize) ok (w ++ body.take readsize) with
      | error e => rw [hres] at h; simp at h
      | ok p =>
        obtain ⟨ys2, w2, fin⟩ := p
        rw [hres] at h
        rw [Except.ok.injEq, Prod.mk.injEq, Prod.mk.injEq] at h
        obtain ⟨hys, hw, hfin⟩ := h
        subst hfin
        have hrec := ih (body.drop readsize) ok (w ++ body.take readsize) w2 ys2 hres
        refine ⟨hrec.1, ?_, ?_⟩
        · rw [← hw, hrec.2.1, List.append_assoc, List.take_append_drop]
        · rw [← hw, hrec.2.2, ← hys]
          simp [List.flatten_cons, List.append_assoc]

/-! ## Claims -/

/-- C1: on the miss path the temp file is renamed to its final cache path
only after the upstream body has been read to exhaustion — whenever the
rename runs, the `.tmp` file holds exactly the full upstream body and every
chunk was yielded; if the upstream stream errors mid-transfer the rename
never runs; and before the rename the in-flight `.tmp` name is invisible to
`_find_file`'s lookup of the final and range candidate paths. -/
theorem c1_atomic_publication (body : List Nat) (takes : Nat) (p rp : List Char) (e : FSEntry)
    (hname : p ≠ tmpName rp)
    (hren : fccRenamed (fileCacheIter body true takes) = true) :
    fccRenamed (fileCacheIter body false takes) = false ∧
    fccTmp (fileCacheIter body true takes) = body ∧
    (fccYielded (fileCacheIter body true takes)).flatten = body ∧
    find_file [(tmpName rp, e)] [(p, true), (rp, false)] = none := by
  refine ⟨?_, ?_, ?_, find_file_tmp_invisible p rp e hname⟩
  · cases hcase : fccRenamed (fileCacheIter body false takes) with
    | false => rfl
    | true =>
      have h := (fccLoop_renamed_iff takes body false []).mp hcase
      exact absurd h.1 (by simp)
  · cases hres : fileCacheIter body true takes with
    | error e2 => rw [hres] at hren; simp [fccRenamed] at hren
    | ok P =>
      obtain ⟨ys, w, fin⟩ := P
      rw [hres] at hren
      simp only [fccRenamed] at hren
      subst hren
      have h := fccLoop_publish takes body true [] w ys (by rw [← fileCacheIter]; exact hres)
      simpa [fccTmp] using h.2.1
  · cases hres : fileCacheIter body true takes with
    | error e2 => rw [hres] at hren; simp [fccRenamed] at hren
    | ok P =>
      obtain ⟨ys, w, fin⟩ := P
      rw [hres] at hren
      simp only [fccRenamed] at hren
      subst hren
      have h := fccLoop_publish takes body true [] w ys (by rw [← fileCacheIter]; exact hres)
      simp only [fccYielded]
      have h2 := h.2.1
      have h3 := h.2.2
      simp only [List.nil_append] at h2 h3
      rw [← h3, h2]

/-- Witness for C1 at a concrete input. -/
theorem c1_atomic_publication_witness :
    (("/c/a".data ≠ tmpName "/c/b".data) ∧
        fccRenamed (fileCacheIter [1, 2] true 2) = true) ∧
      (fccRenamed (fileCacheIter [1, 2] false 2) = false ∧
       fccTmp (fileCacheIter [1, 2] true 2) = [1, 2] ∧
       (fccYielded (fileCacheIter [1, 2] true 2)).flatten = [1, 2] ∧
       find_file [(tmpName "/c/b".data, FSEntry.dir)]
         [("/c/a".data, true), ("/c/b".data, false)] = none) :=
  ⟨⟨by decide, by decide⟩,
   c1_atomic_publication [1, 2] 2 "/c/a".data "/c/b".data FSEntry.dir (by decide) (by decide)⟩

/-- C2: the claim states `content_length = end - start + 1` for a finite
explicit range, but the source computes `(content_start - content_end) + 1`;
at range `(10, 20)` with size 100 the code yields `-9` while the claim
demands `11` (the 206 status part does hold). -/
theorem c2_code_behavior :
    (mkResponse "application/octet-stream" 100 (some (10, 20))).content_length = -9 ∧
    (mkResponse "application/octet-stream" 100 (some (10, 20))).status = 206 ∧
    (mkResponse "application/octet-stream" 100 (some (10, 20))).content_length ≠ 20 - 10 + 1 := by
  refine ⟨by decide, by decide, by decide⟩

/-- C3: counterexample — the claim demands a STRICT descendant for every
input, but the raw path `"/"` resolves to `cache_root/mirror_name` itself,
which is not strictly below that directory. -/
theorem c3_counterexample :
    translate_path "/cache".data "m".data "/".data = os_path_join "/cache".data "m".data ∧
    ¬ strictDescendant (os_path_join "/cache".data "m".data)
        (translate_path "/cache".data "m".data "/".data) := by
  have heq : translate_path "/cache".data "m".data "/".data
      = os_path_join "/cache".data "m".data := by decide
  refine ⟨heq, ?_⟩
  rintro ⟨segs, hne, hsafe, hfold⟩
  have hlen := foldl_join_length segs (os_path_join "/cache".data "m".data)
    (fun w hw => ⟨(hsafe w hw).1, (hsafe w hw).2.2.2⟩) hne
  rw [← hfold, heq] at hlen
  exact lt_irrefl _ hlen

/-- C3 (amended): for every mirror name and raw URL path the resolved path
is a descendant of `cache_root/mirror_name` or that directory itself (never
escapes it), and resolution is total; strictness fails exactly when every
word of the normalized path is dropped (e.g. the input `"/"`). -/
theorem c3_amended_descendant (cache_dir mirror_name path : List Char) :
    descendantOrSelf (os_path_join cache_dir mirror_name)
      (translate_path cache_dir mirror_name path) :=
  translate_path_descendantOrSelf cache_dir mirror_name path

/-- C4: counterexample — an explicit `Range: bytes=0-` parses to the tuple
`(0, -1)`, which IS the `FULL_RANGE` sentinel, so the response status is
200, not the claimed 206. -/
theorem c4_counterexample :
    get_range (some "bytes=0-") = Except.ok (some (0, -1)) ∧
    (mkResponse "application/octet-stream" 100 (some (0, -1))).status = 200 := by
  exact ⟨by decide, by decide⟩

/-- C4 (amended): the status is 206 iff the effective range tuple differs
from `FULL_RANGE = (0, -1)`; the explicit header `bytes=0-` parses to that
very tuple — the no-header sentinel is NOT distinct from an explicit `0-`
range — and therefore receives status 200. -/
theorem c4_amended_status (ct : String) (size : Int) :
    get_range (some "bytes=0-") = Except.ok (some FULL_RANGE) ∧
    (mkResponse ct size (some FULL_RANGE)).status = 200 ∧
    ∀ r : Option (Int × Int),
      (mkResponse ct size r).status = 206 ↔ r.getD FULL_RANGE ≠ FULL_RANGE := by
  refine ⟨by decide, ?_, ?_⟩
  · simp [mkResponse, Response.status, FULL_RANGE]
  · intro r
    simp only [mkResponse, Response.status]
    by_cases h : (r.getD FULL_RANGE : Int × Int) ≠ FULL_RANGE
    · rw [if_pos h]
      simp [h]
    · rw [if_neg h]
      simp [h]

/-- C5: counterexample — a malformed `Range` header (`bytes=abc`) is NOT
treated as absent: `_get_range` raises `AttributeError` (`m` is `None`),
instead of proceeding as a full-object request. -/
theorem c5_counterexample :
    get_range (some "bytes=abc") = Except.error PyErr.attributeError ∧
    get_range (some "bytes=abc") ≠ Except.ok none := by
  exact ⟨by decide, by decide⟩

/-- C5 (amended): an absent or empty `Range` header yields a full-object
request, but a nonempty header that fails the regex raises `AttributeError`
and the request fails instead of being downgraded. -/
theorem c5_amended_malformed (s : String) (h1 : s ≠ "")
    (h2 : parseRangeHeader s.data = none) :
    get_range none = Except.ok none ∧
    get_range (some "") = Except.ok none ∧
    get_range (some s) = Except.error PyErr.attributeError := by
  refine ⟨by decide, by decide, ?_⟩
  simp [get_range, h1, h2]

/-- Witness for C5 at a concrete input. -/
theorem c5_amended_malformed_witness :
    (("bytes=abc" : String) ≠ "" ∧ parseRangeHeader "bytes=abc".data = none) ∧
      (get_range none = Except.ok none ∧
       get_range (some "") = Except.ok none ∧
       get_range (some "bytes=abc") = Except.error PyErr.attributeError) :=
  ⟨⟨by decide, by decide⟩, c5_amended_malformed "bytes=abc" (by decide) (by decide)⟩

/-- C6: with no full-file entry but an exact range-suffixed cache file
present, `do_GET` does select that file (hit), but it constructs
`FileContent` with `range=None` (because `file_range` is `False` for the
range candidate), and the first `next()` on that stream evaluates
`self.range[0]` and raises `TypeError` — the cached range file's bytes are
never streamed. -/
theorem c6_range_file_typeerror :
    (do_GET [("m".data, "u".data)] "/c".data
        [("/c/m/a(1-2).rpm".data, FSEntry.file [5, 6] true)]
        (fun _ _ => Except.error 404) "/m/a.rpm".data (some "bytes=1-2")).2
      = Except.ok (GetRet.fileContent [5, 6] none) ∧
    fileContentIter [5, 6] none 1 = Except.error PyErr.typeError := by
  exact ⟨by decide, by decide⟩

/-- C7: counterexample — a consumer that stops consuming after the only
chunk (before driving the generator to `StopIteration`) leaves the cached
file's handle open: the loop epilogue `self.f.close()` never runs, so the
handle is NOT closed on this exit path. -/
theorem c7_counterexample :
    fileContentIter [7] (some (0, 0)) 1 = Except.ok ([[7]], false) := by
  decide

/-- C7 (amended): on the hit path the file handle is closed (exactly once)
iff the generator body runs to normal completion, i.e. iff the run did not
error and the consumer made strictly more `next()` calls than chunks were
yielded; on early consumer termination, and on the `TypeError`/`IOError`
paths, the close is skipped. -/
theorem c7_amended_close (contents : List Nat) (range : Option (Int × Int)) (takes : Nat) :
    fcClosed (fileContentIter contents range takes) = true ↔
      (exceptIsOk (fileContentIter contents range takes) = true ∧
       (fcYielded (fileContentIter contents range takes)).length < takes) := by
  unfold fileContentIter
  by_cases ht : takes = 0
  · subst ht
    simp [fcClosed, exceptIsOk, fcYielded]
  · rw [if_neg ht]
    match range with
    | none => simp [fcClosed, exceptIsOk, fcYielded]
    | some (s, e) =>
      dsimp only
      by_cases hs : s < 0
      · rw [if_pos hs]
        simp [fcClosed, exceptIsOk, fcYielded]
      · rw [if_neg hs]
        simp only [fcClosed, exceptIsOk, fcYielded, true_and]
        exact fcLoop_closed_iff takes ⟨contents, s.toNat⟩ ((e - s) + 1)

/-- C8: counterexample — the consumer stops after the first (and only)
chunk, before the upstream stream is exhausted; the generator is abandoned
at its `yield`, so the close-close-rename epilogue never runs and no cache
entry is published, refuting "the download still runs to completion and the
complete cache entry is still written and published". -/
theorem c8_counterexample :
    fileCacheIter [1, 2] true 1 = Except.ok ([[1, 2]], [1, 2], false) := by
  decide

/-- C8 (amended): the temp file is renamed into the visible cache iff the
upstream stream ends cleanly AND the consumer makes strictly more `next()`
calls than chunks were yielded (drives the generator past its last yield);
a consumer that stops earlier cancels cache population. -/
theorem c8_amended_publication (body : List Nat) (ok : Bool) (takes : Nat) :
    fccRenamed (fileCacheIter body ok takes) = true ↔
      (ok = true ∧ (fccYielded (fileCacheIter body ok takes)).length < takes) :=
  fccLoop_renamed_iff takes body ok []

/-- C9: counterexample — for a request whose mirror segment `x` is not
configured, `do_GET` does NOT fail before path resolution: the trace shows
the resolve step ran (and the cache was consulted) before the `KeyError`
from `self.mirrors[mirror_name]` on the miss path. -/
theorem c9_counterexample :
    (do_GET [("m".data, "u".data)] "/c".data [] (fun _ _ => Except.error 404)
        "/x/a".data none).2 = Except.error PyErr.keyError ∧
    Ev.resolve (translate_path "/c".data "x".data "/a".data)
      ∈ (do_GET [("m".data, "u".data)] "/c".data [] (fun _ _ => Except.error 404)
        "/x/a".data none).1 := by
  exact ⟨by decide, by decide⟩

/-- C9 (amended): an unknown mirror name is a hard failure (`KeyError`) only
on the cache-miss path, and it occurs AFTER path resolution and cache lookup
but BEFORE any upstream contact: the result is the `KeyError`, the trace
contains the resolve step, and contains no fetch event. -/
theorem c9_amended_unknown_mirror (mirrors : List (List Char × List Char))
    (cache_dir : List Char) (fs : FS)
    (remote : List Char → Option (List Char) → Except Nat Upstream)
    (url : List Char) (httpRange : Option String)
    (pre m rest : List Char) (rng : Option (Int × Int))
    (hsplit : pySplitMax '/' 2 url = [pre, m, rest])
    (hdir : isdir fs (translate_path cache_dir m ('/' :: rest)) = false)
    (hrange : get_range httpRange = Except.ok rng)
    (hmiss : find_file fs [(translate_path cache_dir m ('/' :: rest), true),
        (rangePathOf (translate_path cache_dir m ('/' :: rest)) rng, false)] = none)
    (hmirror : List.lookup m mirrors = none) :
    (do_GET mirrors cache_dir fs remote url httpRange).2 = Except.error PyErr.keyError ∧
    Ev.resolve (translate_path cache_dir m ('/' :: rest))
      ∈ (do_GET mirrors cache_dir fs remote url httpRange).1 ∧
    (∀ u h, Ev.fetch u h ∉ (do_GET mirrors cache_dir fs remote url httpRange).1) := by
  have heq : do_GET mirrors cache_dir fs remote url httpRange
      = ([Ev.resolve (translate_path cache_dir m ('/' :: rest))],
         Except.error PyErr.keyError) := by
    unfold do_GET
    rw [hsplit]
    simp only [do_GET_split]
    unfold do_GET_path
    rw [hdir]
    simp only [Bool.false_eq_true, if_false]
    rw [hrange]
    simp only []
    rw [hmiss]
    simp only []
    unfold fetch_remote
    rw [hmirror]
  refine ⟨?_, ?_, ?_⟩
  · rw [heq]
  · rw [heq]; simp
  · intro u h
    rw [heq]
    simp

/-- Witness for C9 at a concrete input. -/
theorem c9_amended_unknown_mirror_witness :
    (pySplitMax '/' 2 "/x/a".data = [[], "x".data, "a".data] ∧
     isdir [] (translate_path "/c".data "x".data ('/' :: "a".data)) = false ∧
     get_range none = Except.ok none ∧
     find_file [] [(translate_path "/c".data "x".data ('/' :: "a".data), true),
        (rangePathOf (translate_path "/c".data "x".data ('/' :: "a".data)) none, false)]
       = none ∧
     List.lookup "x".data [("m".data, "u".data)] = none) ∧
      ((do_GET [("m".data, "u".data)] "/c".data []
          (fun _ _ => Except.error 404) "/x/a".data none).2 = Except.error PyErr.keyError ∧
       Ev.resolve (translate_path "/c".data "x".data ('/' :: "a".data))
         ∈ (do_GET [("m".data, "u".data)] "/c".data []
             (fun _ _ => Except.error 404) "/x/a".data none).1 ∧
       (∀ u h, Ev.fetch u h ∉ (do_GET [("m".data, "u".data)] "/c".data []
           (fun _ _ => Except.error 404) "/x/a".data none).1)) :=
  ⟨⟨by decide, by decide, by decide, by decide, by decide⟩,
   c9_amended_unknown_mirror [("m".data, "u".data)] "/c".data []
     (fun _ _ => Except.error 404) "/x/a".data none [] "x".data "a".data none
     (by decide) (by decide) (by decide) (by decide) (by decide)⟩

/-- C10: a GET whose resolved local path is an existing directory returns
`None` with no response at all — no `start_response` call and no upstream
fetch appear in the trace. -/
theorem c10_dir_returns_none (mirrors : List (List Char × List Char))
    (cache_dir : List Char) (fs : FS)
    (remote : List Char → Option (List Char) → Except Nat Upstream)
    (url : List Char) (httpRange : Option String)
    (pre m rest : List Char)
    (hsplit : pySplitMax '/' 2 url = [pre, m, rest])
    (hdir : isdir fs (translate_path cache_dir m ('/' :: rest)) = true) :
    do_GET mirrors cache_dir fs remote url httpRange
      = ([Ev.resolve (translate_path cache_dir m ('/' :: rest))], Except.ok GetRet.noneR) ∧
    (∀ s h, Ev.respond s h ∉ (do_GET mirrors cache_dir fs remote url httpRange).1) ∧
    (∀ u h, Ev.fetch u h ∉ (do_GET mirrors cache_dir fs remote url httpRange).1) := by
  have heq : do_GET mirrors cache_dir fs remote url httpRange
      = ([Ev.resolve (translate_path cache_dir m ('/' :: rest))], Except.ok GetRet.noneR) := by
    unfold do_GET
    rw [hsplit]
    simp only [do_GET_split]
    unfold do_GET_path
    rw [hdir]
    simp
  refine ⟨heq, ?_, ?_⟩
  · intro s h
    rw [heq]
    simp
  · intro u h
    rw [heq]
    simp

/-- Witness for C10 at a concrete input. -/
theorem c10_dir_returns_none_witness :
    (pySplitMax '/' 2 "/m/d".data = [[], "m".data, "d".data] ∧
     isdir [("/c/m/d".data, FSEntry.dir)]
       (translate_path "/c".data "m".data ('/' :: "d".data)) = true) ∧
      (do_GET [("m".data, "u".data)] "/c".data [("/c/m/d".data, FSEntry.dir)]
          (fun _ _ => Except.error 404) "/m/d".data none
        = ([Ev.resolve (translate_path "/c".data "m".data ('/' :: "d".data))],
           Except.ok GetRet.noneR) ∧
       (∀ s h, Ev.respond s h ∉ (do_GET [("m".data, "u".data)] "/c".data
           [("/c/m/d".data, FSEntry.dir)]
           (fun _ _ => Except.error 404) "/m/d".data none).1) ∧
       (∀ u h, Ev.fetch u h ∉ (do_GET [("m".data, "u".data)] "/c".data
           [("/c/m/d".data, FSEntry.dir)]
           (fun _ _ => Except.error 404) "/m/d".data none).1)) :=
  ⟨⟨by decide, by decide⟩,
   c10_dir_returns_none [("m".data, "u".data)] "/c".data [("/c/m/d".data, FSEntry.dir)]
     (fun _ _ => Except.error 404) "/m/d".data none [] "m".data "d".data
     (by decide) (by decide)⟩
